import Mathlib

/-!
Verification development for the `tableau-ops-toolkit` repository, centred on
`tableau-wb-backup2s3/wb_backup2s3/core.py` (class `BackupWB2S3`).

The Python code is shallowly embedded: stateful methods become explicit state
passing, fallible remote calls become oracle functions returning `Except`, and
the `dict` holding the per-site upload state becomes an association list with
Python-dict semantics (update-in-place, insert-at-end, unique keys).
Timestamps compared by the code only through
`strftime('%Y-%m-%d %H:%M:%S%z')` are carried as their formatted strings.
-/

set_option maxHeartbeats 1000000

namespace WbBackup2S3

/-! ## The retry decorator (core.py lines 39-56)

The decorated function body is modelled as a stream `op : Nat → Except E A`
giving the outcome of the n-th invocation (0-indexed).  `retryLoop` mirrors
the `for attempt in range(times)` loop with its `last_exception` variable;
the pair's second component counts how many times `op` was invoked.  The
result `Except.error none` models `raise last_exception` when
`last_exception` is still `None` (only reachable with `times = 0`). -/

def retryLoop {E A : Type} (op : Nat → Except E A) :
    Nat → Nat → Option E → Except (Option E) A × Nat
  | i, fuel + 1, _ =>
      match op i with
      | Except.ok a => (Except.ok a, i + 1)
      | Except.error e => retryLoop op (i + 1) fuel (some e)
  | i, 0, last => (Except.error last, i)

/-- `retry(times=...)` from core.py: run `op` up to `times` times, return the
first success, otherwise re-raise the last failure. -/
def retry {E A : Type} (times : Nat) (op : Nat → Except E A) :
    Except (Option E) A × Nat :=
  retryLoop op 0 times none

theorem retryLoop_ok {E A : Type} (op : Nat → Except E A) (k : Nat) :
    ∀ (fuel i : Nat) (last : Option E) (a : A),
      (∀ j, j < k → ∃ e, op (i + j) = Except.error e) →
      op (i + k) = Except.ok a → k < fuel →
      retryLoop op i fuel last = (Except.ok a, i + k + 1) := by
  induction k with
  | zero =>
      intro fuel i last a _ hok hfuel
      match fuel, hfuel with
      | fuel + 1, _ =>
          rw [Nat.add_zero] at hok
          simp [retryLoop, hok]
  | succ k ih =>
      intro fuel i last a hfail hok hfuel
      match fuel, hfuel with
      | fuel + 1, hfuel =>
          obtain ⟨e, he⟩ := hfail 0 (Nat.succ_pos k)
          rw [Nat.add_zero] at he
          have step : retryLoop op i (fuel + 1) last
              = retryLoop op (i + 1) fuel (some e) := by
            simp [retryLoop, he]
          rw [step]
          have hfail2 : ∀ j, j < k → ∃ e2, op (i + 1 + j) = Except.error e2 := by
            intro j hj
            have := hfail (j + 1) (Nat.succ_lt_succ hj)
            rwa [show i + (j + 1) = i + 1 + j by omega] at this
          have hok2 : op (i + 1 + k) = Except.ok a := by
            rwa [show i + (k + 1) = i + 1 + k by omega] at hok
          have := ih fuel (i + 1) (some e) a hfail2 hok2 (Nat.lt_of_succ_lt_succ hfuel)
          rw [this, show i + 1 + k + 1 = i + (k + 1) + 1 by omega]

theorem retryLoop_err {E A : Type} (op : Nat → Except E A) (fuel : Nat) :
    ∀ (i : Nat) (last : Option E) (e : E),
      (∀ j, j < fuel → ∃ e2, op (i + j) = Except.error e2) →
      op (i + fuel - 1) = Except.error e → 0 < fuel →
      retryLoop op i fuel last = (Except.error (some e), i + fuel) := by
  induction fuel with
  | zero => intro i last e _ _ hpos; exact absurd hpos (by omega)
  | succ fuel ih =>
      intro i last e hfail herr _
      obtain ⟨e0, he0⟩ := hfail 0 (Nat.succ_pos fuel)
      rw [Nat.add_zero] at he0
      have step : retryLoop op i (fuel + 1) last
          = retryLoop op (i + 1) fuel (some e0) := by
        simp [retryLoop, he0]
      rw [step]
      cases fuel with
      | zero =>
          rw [show i + (0 + 1) - 1 = i by omega] at herr
          rw [he0] at herr
          cases herr
          simp [retryLoop]
      | succ fuel =>
          have hfail2 : ∀ j, j < fuel + 1 → ∃ e2, op (i + 1 + j) = Except.error e2 := by
            intro j hj
            have := hfail (j + 1) (Nat.succ_lt_succ hj)
            rwa [show i + (j + 1) = i + 1 + j by omega] at this
          have herr2 : op (i + 1 + (fuel + 1) - 1) = Except.error e := by
            rwa [show i + (fuel + 1 + 1) - 1 = i + 1 + (fuel + 1) - 1 by omega] at herr
          have := ih (i + 1) (some e0) e hfail2 herr2 (Nat.succ_pos fuel)
          rw [this, show i + 1 + (fuel + 1) = i + (fuel + 1 + 1) by omega]

/-- C6: the retry wrapper returns the first success when the operation fails
`k < times` times and then succeeds on attempt `k`; when all `times`
invocations fail, it invokes the operation exactly `times` times and
re-raises the last attempt's failure unchanged. -/
theorem retry_bounded_attempts {E A : Type} (times : Nat) (op : Nat → Except E A) :
    (∀ (k : Nat) (a : A), k < times →
        (∀ j, j < k → ∃ e, op j = Except.error e) →
        op k = Except.ok a →
        retry times op = (Except.ok a, k + 1)) ∧
    (∀ e : E, (∀ j, j < times → ∃ e2, op j = Except.error e2) → 0 < times →
        op (times - 1) = Except.error e →
        retry times op = (Except.error (some e), times)) := by
  constructor
  · intro k a hk hfail hok
    have := retryLoop_ok op k times 0 none a
      (by intro j hj; simpa using hfail j hj) (by simpa using hok) hk
    simpa [retry] using this
  · intro e hfail hpos herr
    have := retryLoop_err op times 0 none e
      (by intro j hj; simpa using hfail j hj) (by simpa using herr) hpos
    simpa [retry] using this

/-! ## Data model

`WorkbookItem` carries the attributes of a TSC workbook that core.py reads.
The timestamps are only ever compared through
`strftime('%Y-%m-%d %H:%M:%S%z')`, so the fields `created_at_fmt` and
`updated_at_fmt` hold that formatted string directly.
`UploadStateEntry` is the value stored in `self.upload_state[wb_path]`
(core.py lines 247-254). -/

structure WorkbookItem where
  id : String
  name : String
  project_id : String
  owner_id : String
  /-- `wb.created_at.strftime('%Y-%m-%d %H:%M:%S%z')` -/
  created_at_fmt : String
  /-- `wb.updated_at.strftime('%Y-%m-%d %H:%M:%S%z')` -/
  updated_at_fmt : String
  tags : List String
deriving DecidableEq, Repr

structure UploadStateEntry where
  id : String
  name : String
  created_at : String
  updated_at : String
  upload_date : String
  object_key : String
deriving DecidableEq, Repr

/-- `self.upload_state`: a Python dict from workbook path to entry, modelled
as an association list with unique keys in insertion order. -/
abbrev State := List (String × UploadStateEntry)

/-- `self.upload_state.get(k)` (`None` when absent). -/
def dictGet (st : State) (k : String) : Option UploadStateEntry :=
  (st.find? (fun p => p.1 == k)).map Prod.snd

/-- `self.upload_state[k] = v`: Python dicts update the value in place when
the key exists and append at the end otherwise. -/
def dictSet : State → String → UploadStateEntry → State
  | [], k, v => [(k, v)]
  | p :: t, k, v => if p.1 == k then (k, v) :: t else p :: dictSet t k v

/-- `self.upload_state.pop(k)`. -/
def dictPop (st : State) (k : String) : State :=
  st.filter (fun p => !(p.1 == k))

theorem dictGet_cons (p : String × UploadStateEntry) (t : State) (k : String) :
    dictGet (p :: t) k = if p.1 = k then some p.2 else dictGet t k := by
  by_cases h : p.1 = k
  · rw [if_pos h]
    unfold dictGet
    rw [List.find?_cons_of_pos _ (by simpa using h)]
    rfl
  · rw [if_neg h]
    unfold dictGet
    rw [List.find?_cons_of_neg _ (by simpa using h)]

theorem dictGet_dictSet_self (st : State) (k : String) (v : UploadStateEntry) :
    dictGet (dictSet st k v) k = some v := by
  induction st with
  | nil => simp [dictSet, dictGet_cons]
  | cons p t ih =>
      obtain ⟨pk, pv⟩ := p
      by_cases h : pk = k
      · simp [dictSet, h, dictGet_cons]
      · simp [dictSet, h, dictGet_cons, ih]

theorem dictGet_dictSet_ne (st : State) (k k2 : String) (v : UploadStateEntry)
    (h : k2 ≠ k) : dictGet (dictSet st k v) k2 = dictGet st k2 := by
  induction st with
  | nil => simp [dictSet, dictGet_cons, dictGet, Ne.symm h]
  | cons p t ih =>
      obtain ⟨pk, pv⟩ := p
      by_cases hp : pk = k
      · subst hp
        simp [dictSet, dictGet_cons, Ne.symm h]
      · by_cases hp2 : pk = k2
        · simp [dictSet, hp, dictGet_cons, hp2, h]
        · simp [dictSet, hp, dictGet_cons, hp2, ih]

theorem dictGet_filter (st : State) (P : String → Bool) (k : String)
    (hP : P k = true) :
    dictGet (st.filter (fun p => P p.1)) k = dictGet st k := by
  induction st with
  | nil => simp
  | cons p t ih =>
      obtain ⟨pk, pv⟩ := p
      by_cases hp : pk = k
      · subst hp
        simp [List.filter_cons, hP, dictGet_cons]
      · cases hPp : P pk
        · simp [List.filter_cons, hPp, dictGet_cons, hp, ih]
        · simp [List.filter_cons, hPp, dictGet_cons, hp, ih]

theorem dictGet_none_of_not_keys (st : State) (k : String)
    (h : k ∉ st.map Prod.fst) : dictGet st k = none := by
  induction st with
  | nil => rfl
  | cons p t ih =>
      obtain ⟨pk, pv⟩ := p
      simp only [List.map_cons, List.mem_cons] at h
      push_neg at h
      rw [dictGet_cons, if_neg (fun hh => h.1 hh.symm)]
      exact ih h.2

theorem mem_of_dictGet_eq_some (st : State) (k : String) (v : UploadStateEntry)
    (h : dictGet st k = some v) : (k, v) ∈ st := by
  induction st with
  | nil => simp [dictGet] at h
  | cons p t ih =>
      obtain ⟨pk, pv⟩ := p
      rw [dictGet_cons] at h
      by_cases hp : pk = k
      · rw [if_pos hp] at h
        obtain rfl : pv = v := Option.some.inj h
        subst hp
        exact List.mem_cons_self _ _
      · rw [if_neg hp] at h
        exact List.mem_cons_of_mem _ (ih h)

/-! ## Project hierarchy (core.py lines 163-185) -/

structure ProjectItem where
  id : String
  name : String
  parent_id : Option String
deriving DecidableEq, Repr

/-- `all_projects[pid]` lookup in the id-keyed dict built on line 165. -/
def findProject (ps : List ProjectItem) (pid : String) : Option ProjectItem :=
  ps.find? (fun p => p.id == pid)

/-- The `while True` parent walk of `_build_project_structure` (lines 169-175):
collects the names of the ancestors of a project, nearest parent first.  The
source walk does not terminate on cyclic parent links; the fuel bound is
sufficient for any acyclic forest when instantiated with the number of
projects.  A missing parent id raises `KeyError` in Python; here the walk
stops (the claims only exercise well-formed forests). -/
def ancestorNames (ps : List ProjectItem) : Option String → Nat → List String
  | some pid, fuel + 1 =>
      match findProject ps pid with
      | some p => p.name :: ancestorNames ps p.parent_id fuel
      | none => []
  | _, _ => []

/-- `self.project_id_path[project.id]` value (line 177):
`'/'.join(path + [project.name]) + '/'` with `path` the reversed ancestor
names. -/
def projectPath (ps : List ProjectItem) (p : ProjectItem) : String :=
  String.intercalate "/" ((ancestorNames ps p.parent_id ps.length).reverse ++ [p.name]) ++ "/"

/-- `self.project_id_path`, a dict from project id to slash-terminated path. -/
def strDictSet : List (String × String) → String → String → List (String × String)
  | [], k, v => [(k, v)]
  | p :: t, k, v => if p.1 == k then (k, v) :: t else p :: strDictSet t k v

def strDictGet (m : List (String × String)) (k : String) : Option String :=
  (m.find? (fun p => p.1 == k)).map Prod.snd

/-- `self.projects_hierarchy.setdefault(parent_id, []).append(project.id)`
(line 168); the dict is keyed by the (nullable) parent id. -/
def hierAdd (h : List (Option String × List String)) (k : Option String)
    (v : String) : List (Option String × List String) :=
  if h.any (fun p => p.1 == k) then
    h.map (fun p => if p.1 == k then (p.1, p.2 ++ [v]) else p)
  else h ++ [(k, [v])]

def hierGet (h : List (Option String × List String)) (k : Option String) :
    Option (List String) :=
  (h.find? (fun p => p.1 == k)).map Prod.snd

/-- `_get_sub_projects` (lines 179-185): all transitive descendants of a
project id, children first, then each child's subtree.  The source recursion
does not terminate on cyclic hierarchies; the fuel bound is sufficient for
any forest when instantiated with the number of hierarchy keys. -/
def getSubProjects (h : List (Option String × List String)) : Nat → String → List String
  | 0, _ => []
  | fuel + 1, pid =>
      let children := (hierGet h (some pid)).getD []
      children ++ children.flatMap (fun c => getSubProjects h fuel c)

/-- The per-instance fields of `BackupWB2S3` that `_ts_switch_site` touches. -/
structure EngineState where
  current_site_name : Option String
  upload_state : State
  project_id_path : List (String × String)
  projects_hierarchy : List (Option String × List String)
deriving DecidableEq, Repr

/-- `_build_project_structure` (lines 163-177): folds over the project list,
appending each project to its parent's children list and recording its path.
Note the source mutates the existing dicts; nothing is cleared first. -/
def buildProjectStructure (ps : List ProjectItem) (es : EngineState) : EngineState :=
  ps.foldl
    (fun acc p =>
      { acc with
        projects_hierarchy := hierAdd acc.projects_hierarchy p.parent_id p.id,
        project_id_path := strDictSet acc.project_id_path p.id (projectPath ps p) })
    es

structure TsSite where
  name : String
  content_url : String
deriving DecidableEq, Repr

/-- `_ts_switch_site` (lines 191-201).  `loadState` is the
`_s3_download_upload_state` oracle (keyed by the new current site name) and
`listProjects` the project listing returned by the source system.  When no
site of the requested name exists, the method only logs a warning: no field
changes. -/
def tsSwitchSite (allSites : List TsSite) (loadState : String → State)
    (listProjects : List ProjectItem) (es : EngineState) (site_name : String) :
    EngineState :=
  match allSites.filter (fun s => s.name == site_name) with
  | [] => es
  | s :: _ =>
      buildProjectStructure listProjects
        { es with current_site_name := some s.name, upload_state := loadState s.name }

/-- `_get_wb_path` (lines 153-154):
`current_site_name + '/' + project_id_path[wb.project_id] + wb.name`.
A missing project id raises `KeyError` in Python; the default `""` is never
exercised by the claims, whose listings come from `buildProjectStructure`. -/
def getWbPath (site : String) (pm : List (String × String)) (wb : WorkbookItem) : String :=
  site ++ "/" ++ (strDictGet pm wb.project_id).getD "" ++ wb.name

/-! ## The per-item transfer (`_do_backup`, core.py lines 206-255) -/

/-- `BackupWB2S3._download_error_ignore_tag` (line 93). -/
def downloadErrorIgnoreTag : String := "WBBackupIgnoreErrors"

/-- The remote calls one `_do_backup` invocation can make, as outcome
streams indexed by attempt number.  `download full_fidelity n` models the
n-th `self.ts.workbooks.download(..., include_extract=full_fidelity)` call
and returns the staged file path; `upload fp key n` models the n-th
`s3_client.upload_file` call. -/
structure TransferOps (E : Type) where
  download : Bool → Nat → Except E String
  upload : String → String → Nat → Except E Unit

/-- `_ts_download_wb` (lines 206-214): the download wrapped by `@retry`
(default budget 6). -/
def tsDownloadWb {E : Type} (ops : TransferOps E) (include_extract : Bool) :
    Except (Option E) String × Nat :=
  retry 6 (ops.download include_extract)

/-- `_s3_upload` (lines 392-409): the upload wrapped by `@retry` (budget 6). -/
def s3Upload {E : Type} (ops : TransferOps E) (fp objKey : String) :
    Except (Option E) Unit × Nat :=
  retry 6 (ops.upload fp objKey)

/-- Python `s.split('.')` at the character level (the separator is the
single character `.`). -/
def splitOnDot : List Char → List (List Char)
  | [] => [[]]
  | c :: rest =>
      let r := splitOnDot rest
      if c = '.' then [] :: r
      else
        match r with
        | h :: t => (c :: h) :: t
        | [] => [[c]]

/-- `file_path[-7:].split('.')[1]` (line 233).  The slice saturates on short
strings just like Python; a path whose last 7 characters contain no dot
raises `IndexError` in Python, modelled by the `""` default. -/
def fileExt (fp : String) : String :=
  String.mk ((splitOnDot ((fp.data.reverse.take 7).reverse)).getD 1 [])

/-- `_do_backup` (lines 216-255), which runs inside a worker thread: download
at full fidelity (retry-wrapped); on failure fall back to
`include_extract=False` (the same retry-wrapped method); upload; then write
`self.upload_state[wb_path]` when `include_extract` is still true or the
workbook carries the ignore tag.  The returned `State` is the upload-state
dict as this method leaves it (the Python method mutates it in place). -/
def doBackup {E : Type} (ops : TransferOps E) (site : String)
    (pm : List (String × String)) (today : String) (wb : WorkbookItem)
    (st : State) : Except (Option E) State :=
  let wb_path := getWbPath site pm wb
  let downloaded : Except (Option E) (String × Bool) :=
    match (tsDownloadWb ops true).1 with
    | Except.ok fp => Except.ok (fp, true)
    | Except.error _ =>
        match (tsDownloadWb ops false).1 with
        | Except.ok fp => Except.ok (fp, false)
        | Except.error e => Except.error e
  match downloaded with
  | Except.error e => Except.error e
  | Except.ok (fp, include_extract) =>
      let obj_key := wb_path ++ "." ++ fileExt fp
      match (s3Upload ops fp obj_key).1 with
      | Except.error e => Except.error e
      | Except.ok _ =>
          if include_extract || wb.tags.contains downloadErrorIgnoreTag then
            Except.ok (dictSet st wb_path
              { id := wb.id, name := wb.name, created_at := wb.created_at_fmt,
                updated_at := wb.updated_at_fmt, upload_date := today,
                object_key := obj_key })
          else
            Except.ok st

/-- How many times the degraded-mode (`include_extract=False`) download is
invoked by one `_do_backup` call: zero when the full-fidelity download
succeeds, otherwise however many invocations the retry-wrapped fallback
makes. -/
def fallbackDownloadInvocations {E : Type} (ops : TransferOps E) : Nat :=
  match (tsDownloadWb ops true).1 with
  | Except.ok _ => 0
  | Except.error _ => (tsDownloadWb ops false).2

/-- `_backup_wb` outcomes folded over a queue of workbooks: each worker task
runs `_do_backup`; on failure the shared state is left as is and the error
goes to `failed_q` (failure isolation, lines 273-278). -/
def runQueue {E : Type} (ops : TransferOps E) (site : String)
    (pm : List (String × String)) (today : String)
    (queue : List WorkbookItem) (st : State) : State :=
  queue.foldl
    (fun s wb =>
      match doBackup ops site pm today wb s with
      | Except.ok s2 => s2
      | Except.error _ => s)
    st

/-! ## `backup_site` (core.py lines 303-380) -/

/-- Outcome of the tombstone loop (lines 340-343): the upload state after the
loop, the object keys passed to `_s3_update_last_modified`, and the first
exception raised by a refresh call, if any (it propagates out of
`backup_site`, leaving the state as mutated so far). -/
structure SweepOut (E : Type) where
  state : State
  refreshed : List String
  err : Option E
deriving DecidableEq, Repr

/-- The tombstone loop body over the snapshot list
`[(k, v) for k, v in self.upload_state.items() if k not in all_wbs_paths]`:
refresh the stored object key, then `self.upload_state.pop(wb_path)`. -/
def tombstoneSweepGo {E : Type} (refresh : String → Except E Unit) :
    State → List (String × UploadStateEntry) → SweepOut E
  | st, [] => { state := st, refreshed := [], err := none }
  | st, (k, v) :: rest =>
      match refresh v.object_key with
      | Except.error e => { state := st, refreshed := [], err := some e }
      | Except.ok _ =>
          let r := tombstoneSweepGo refresh (dictPop st k) rest
          { r with refreshed := v.object_key :: r.refreshed }

/-- Lines 340-343 of `backup_site`: the snapshot comprehension followed by
the loop. -/
def tombstoneSweep {E : Type} (refresh : String → Except E Unit) (st : State)
    (livePaths : List String) : SweepOut E :=
  tombstoneSweepGo refresh st (st.filter (fun p => !(livePaths.contains p.1)))

/-- The change test of lines 348-352:
`self.upload_state.get(wb_path) and all([id ==, updated_at ==, created_at ==])`. -/
def wbUnchangedIn (st : State) (path : String) (wb : WorkbookItem) : Bool :=
  match dictGet st path with
  | some e =>
      e.id == wb.id && e.updated_at == wb.updated_at_fmt
        && e.created_at == wb.created_at_fmt
  | none => false

/-- `queue_to_backup` built by the loop of lines 345-368 (appends exactly
those workbooks that fail the unchanged test, in listing order). -/
def queueToBackup (st : State) (site : String) (pm : List (String × String))
    (wbs : List WorkbookItem) : List WorkbookItem :=
  wbs.filter (fun wb => !(wbUnchangedIn st (getWbPath site pm wb) wb))

/-- Python `s.endswith(t)`, at the character level. -/
def strEndsWith (s suffix : String) : Bool :=
  suffix.data.isSuffixOf s.data

/-- Python `s.startswith(t)`, at the character level. -/
def strStartsWith (s pre : String) : Bool :=
  pre.data.isPrefixOf s.data

/-- Lines 320-322: the inclusion-filter project paths are slash-terminated. -/
def normalizeProjectPath (p : String) : String :=
  if strEndsWith p "/" then p else p ++ "/"

/-- `project_ids_to_backup` (lines 317-331): each named project path is
resolved to its id through `project_id_path` and expanded with
`_get_sub_projects`; unknown paths only log a warning. -/
def projectIdsToBackup (pm : List (String × String))
    (hier : List (Option String × List String)) (projects : List String) :
    List String :=
  projects.foldl
    (fun acc ppath =>
      let pp := normalizeProjectPath ppath
      match pm.find? (fun kv => kv.2 == pp) with
      | none => acc
      | some kv => acc ++ [kv.1] ++ getSubProjects hier (hier.length + 1) kv.1)
    []

/-- The pure plan computed by `backup_site` before the thread pool runs
(lines 317-368), with every `_s3_update_last_modified` call succeeding:
the inclusion filter applied to the listing, the tombstone loop, and the
change-detection queue. -/
structure SitePlan where
  refreshedKeys : List String
  stateAfterTombstones : State
  queue : List WorkbookItem
deriving DecidableEq, Repr

def backupSitePlan (site : String) (pm : List (String × String))
    (hier : List (Option String × List String)) (st : State)
    (projects : List String) (wbs : List WorkbookItem) : SitePlan :=
  let ids := projectIdsToBackup pm hier projects
  let wbs2 := if projects.isEmpty then wbs
    else wbs.filter (fun w => ids.contains w.project_id)
  let paths := wbs2.map (getWbPath site pm)
  let sw := tombstoneSweep (fun _ => (Except.ok () : Except Unit Unit)) st paths
  { refreshedKeys := sw.refreshed,
    stateAfterTombstones := sw.state,
    queue := queueToBackup sw.state site pm wbs2 }

/-! ## Retention sweep (core.py lines 411-445) -/

/-- One destination object as returned by `list_objects_v2`: key and
last-modified instant (epoch seconds). -/
structure S3Object where
  key : String
  lastModified : Int
deriving DecidableEq, Repr

/-- `_s3_list_all_objects_in_curr_ts_site` (lines 411-418): all bucket
objects whose key starts with `current_site_name + '/'`. -/
def s3ListAllObjectsInCurrTsSite (bucket : List S3Object) (site : String) :
    List S3Object :=
  bucket.filter (fun o => strStartsWith o.key (site ++ "/"))

/-- `(curr_date - lastModified).days`: Python `timedelta.days` floors toward
minus infinity, i.e. `Int.fdiv` by the seconds in a day. -/
def timedeltaDays (curr lastModified : Int) : Int :=
  (curr - lastModified).fdiv 86400

/-- The keys `_s3_update_outdated_last_modified` (lines 430-445) submits to
`_s3_update_last_modified`: the site-prefixed objects with
`(curr_date - i['LastModified']).days >= days` (both the threaded and the
serial branch iterate this same filtered list). -/
def s3UpdateOutdatedTargets (bucket : List S3Object) (site : String)
    (curr : Int) (days : Int) : List String :=
  ((s3ListAllObjectsInCurrTsSite bucket site).filter
      (fun o => days ≤ timedeltaDays curr o.lastModified)).map S3Object.key

/-! ## Concrete scenarios used by the claims -/

/-- The project forest of the path-resolution example:
`Root(parent=None) → Sales(parent=Root) → Q1(parent=Sales)`. -/
def projRoot : ProjectItem := { id := "p-root", name := "Root", parent_id := none }

def projSales : ProjectItem := { id := "p-sales", name := "Sales", parent_id := some "p-root" }

def projQ1 : ProjectItem := { id := "p-q1", name := "Q1", parent_id := some "p-sales" }

def demoProjects : List ProjectItem := [projRoot, projSales, projQ1]

/-- A `BackupWB2S3` instance right after `__init__` (lines 109-115): no
current site, empty state and maps. -/
def emptyEngine : EngineState :=
  { current_site_name := none, upload_state := [], project_id_path := [],
    projects_hierarchy := [] }

def demoEngine : EngineState := buildProjectStructure demoProjects emptyEngine

/-- The example item `Report1` owned by project `Q1`. -/
def report1 : WorkbookItem :=
  { id := "wb-1", name := "Report1", project_id := "p-q1", owner_id := "u1",
    created_at_fmt := "2024-01-01 00:00:00+0000",
    updated_at_fmt := "2024-01-02 00:00:00+0000", tags := [] }

/-- Two root projects `A` and `B` on site `s`, with one workbook each. -/
def projA : ProjectItem := { id := "pa", name := "A", parent_id := none }

def projB : ProjectItem := { id := "pb", name := "B", parent_id := none }

def abEngine : EngineState := buildProjectStructure [projA, projB] emptyEngine

def wbA : WorkbookItem :=
  { id := "ida", name := "wb1", project_id := "pa", owner_id := "u",
    created_at_fmt := "c", updated_at_fmt := "m", tags := [] }

def wbB : WorkbookItem :=
  { id := "idb", name := "wb2", project_id := "pb", owner_id := "u",
    created_at_fmt := "c", updated_at_fmt := "m", tags := [] }

/-- Persisted state entries matching `wbA` and `wbB` exactly. -/
def entA : UploadStateEntry :=
  { id := "ida", name := "wb1", created_at := "c", updated_at := "m",
    upload_date := "d", object_key := "s/A/wb1.twbx" }

def entB : UploadStateEntry :=
  { id := "idb", name := "wb2", created_at := "c", updated_at := "m",
    upload_date := "d", object_key := "s/B/wb2.twbx" }

def stAB : State := [("s/A/wb1", entA), ("s/B/wb2", entB)]

/-- A transfer environment in which every download succeeds at full fidelity
(staging file `wb.twbx`) and every upload succeeds. -/
def okOps : TransferOps Unit :=
  { download := fun _ _ => Except.ok "wb.twbx", upload := fun _ _ _ => Except.ok () }

/-- A transfer environment in which every download attempt fails (in both
fidelity modes). -/
def failOps : TransferOps Nat :=
  { download := fun _ i => Except.error i, upload := fun _ _ _ => Except.ok () }

/-- A transfer environment in which the full-fidelity download always fails
but the degraded-mode download succeeds. -/
def degOps : TransferOps Nat :=
  { download := fun full _ => if full then Except.error 0 else Except.ok "wb.twbx",
    upload := fun _ _ _ => Except.ok () }

/-! ## C4 — path resolution example -/

/-- C4 (counterexample): on the example forest, the item `Report1` under
`Q1` on site `prod` resolves to `prod/Root/Sales/Q1/Report1`, which differs
from the claimed `prod/Sales/Q1/Report1`. -/
theorem path_example_not_claimed_path :
    getWbPath "prod" demoEngine.project_id_path report1 = "prod/Root/Sales/Q1/Report1" ∧
    "prod/Root/Sales/Q1/Report1" ≠ "prod/Sales/Q1/Report1" := by
  exact ⟨by decide, by decide⟩

/-- C4 (amended): `_build_project_structure` includes the root project's own
name as the first path segment, so `Report1` resolves to
`prod/Root/Sales/Q1/Report1` (a node's path is parent path + name + slash,
and a root node's path is its own name + slash). -/
theorem path_example_resolves_with_root_segment :
    getWbPath "prod" demoEngine.project_id_path report1 = "prod/Root/Sales/Q1/Report1" := by
  decide

/-! ## C2 — tombstone detection under an inclusion filter -/

/-- C2: with the inclusion filter `["B"]` active, the state entry
`s/A/wb1` — which belongs to project `A`, outside the filter — is
nevertheless retention-refreshed and removed from the state by the tombstone
loop, because `backup_site` compares the full state against the filtered
listing (lines 336-343).  The claim (and the spec's design requirement) says
such an entry must receive no refresh and remain unchanged. -/
theorem filtered_run_tombstones_entry_outside_scope :
    (backupSitePlan "s" abEngine.project_id_path abEngine.projects_hierarchy
        stAB ["B"] [wbA, wbB]).refreshedKeys = ["s/A/wb1.twbx"] ∧
    dictGet (backupSitePlan "s" abEngine.project_id_path abEngine.projects_hierarchy
        stAB ["B"] [wbA, wbB]).stateAfterTombstones "s/A/wb1" = none := by
  exact ⟨by decide, by decide⟩

/-! ## C3 — worker tasks and the sync-state map -/

/-- The entry that the worker-side transfer writes in the C3 scenario. -/
def workerWrittenEntry : UploadStateEntry :=
  { id := "ida", name := "wb1", created_at := "c", updated_at := "m",
    upload_date := "2024-02-03", object_key := "s/A/wb1.twbx" }

/-- C3: `_do_backup` — the function executed inside pool worker threads via
`_backup_wb` (lines 370-371 submit it to the `ThreadPoolExecutor`) — itself
mutates the shared `self.upload_state` map (line 247): on a successful
transfer of `wbA` it turns the empty state into one holding the new entry.
The state map is therefore written by worker tasks during pool execution,
not solely by the orchestrating thread after the pool completes. -/
theorem worker_transfer_task_mutates_state_map :
    doBackup okOps "s" abEngine.project_id_path "2024-02-03" wbA []
      = Except.ok [("s/A/wb1", workerWrittenEntry)] ∧
    ([] : State) ≠ [("s/A/wb1", workerWrittenEntry)] := by
  exact ⟨rfl, by decide⟩

/-! ## C5 — the degraded-mode fallback -/

/-- C5 (counterexample): when both download modes keep failing, the
degraded-mode download is invoked 6 times — the full `@retry` budget — not
exactly once, because the fallback call in `_do_backup` (line 228) goes
through the same retry-decorated `_ts_download_wb`. -/
theorem degraded_fallback_not_attempted_once :
    fallbackDownloadInvocations failOps = 6 ∧ (6 : Nat) ≠ 1 := by
  exact ⟨rfl, by decide⟩

/-- C5 (amended): the fallback is issued once by `_do_backup`, but it calls
the same `@retry`-wrapped `_ts_download_wb`, so it shares the primary's
retry budget of 6: when the full-fidelity download fails all 6 attempts and
the degraded download also keeps failing, the degraded download is invoked
exactly 6 times before the transfer gives up. -/
theorem degraded_fallback_shares_retry_budget {E : Type} (ops : TransferOps E)
    (hfull : ∀ i, i < 6 → ∃ e, ops.download true i = Except.error e)
    (hdeg : ∀ i, i < 6 → ∃ e, ops.download false i = Except.error e) :
    (tsDownloadWb ops true).2 = 6 ∧ fallbackDownloadInvocations ops = 6 := by
  obtain ⟨e1, he1⟩ := hfull 5 (by omega)
  obtain ⟨e2, he2⟩ := hdeg 5 (by omega)
  have h1 : tsDownloadWb ops true = (Except.error (some e1), 6) := by
    have := retryLoop_err (ops.download true) 6 0 none e1
      (by intro j hj; simpa using hfull j hj) (by simpa using he1) (by omega)
    simpa [tsDownloadWb, retry] using this
  have h2 : tsDownloadWb ops false = (Except.error (some e2), 6) := by
    have := retryLoop_err (ops.download false) 6 0 none e2
      (by intro j hj; simpa using hdeg j hj) (by simpa using he2) (by omega)
    simpa [tsDownloadWb, retry] using this
  refine ⟨by rw [h1], ?_⟩
  rw [fallbackDownloadInvocations, h1]
  rw [h2]

/-- Witness for the amended C5 at the always-failing environment. -/
theorem degraded_fallback_shares_retry_budget_witness :
    (tsDownloadWb failOps true).2 = 6 ∧ fallbackDownloadInvocations failOps = 6 :=
  degraded_fallback_shares_retry_budget failOps
    (fun i _ => ⟨i, rfl⟩) (fun i _ => ⟨i, rfl⟩)

/-! ## C9 — the retention sweep -/

/-- C9 (counterexample): an object whose last-modified age is exactly the
30-day horizon — so its age does not EXCEED the horizon — is nevertheless
refreshed, because line 437 filters with `>= days`. -/
theorem retention_sweep_refreshes_object_at_horizon :
    s3UpdateOutdatedTargets [{ key := "prod/x", lastModified := 0 }] "prod"
        (30 * 86400) 30 = ["prod/x"] ∧
    ¬((30 * 86400 : Int) - 0 > 30 * 86400) := by
  exact ⟨by decide, by decide⟩

/-- C9 (amended): the sweep refreshes exactly the destination objects whose
key starts with the current site name followed by a slash AND whose
last-modified age in whole days (floored, as Python `timedelta.days`) is at
least `days`; objects strictly below that bound or outside the site prefix
are not refreshed. -/
theorem retention_sweep_targets_characterization (bucket : List S3Object)
    (site : String) (curr days : Int) (key : String) :
    key ∈ s3UpdateOutdatedTargets bucket site curr days ↔
      ∃ o, o ∈ bucket ∧ o.key = key ∧
        strStartsWith key (site ++ "/") = true ∧
        days ≤ timedeltaDays curr o.lastModified := by
  constructor
  · intro h
    rw [s3UpdateOutdatedTargets, List.mem_map] at h
    obtain ⟨o, ho, rfl⟩ := h
    rw [List.mem_filter] at ho
    obtain ⟨ho1, ho2⟩ := ho
    rw [s3ListAllObjectsInCurrTsSite, List.mem_filter] at ho1
    exact ⟨o, ho1.1, rfl, ho1.2, by simpa using ho2⟩
  · rintro ⟨o, hob, rfl, hpre, hd⟩
    rw [s3UpdateOutdatedTargets, List.mem_map]
    refine ⟨o, ?_, rfl⟩
    rw [List.mem_filter]
    refine ⟨?_, by simpa using hd⟩
    rw [s3ListAllObjectsInCurrTsSite, List.mem_filter]
    exact ⟨hob, hpre⟩

/-! ## C10 — switching to a nonexistent site -/

/-- C10: when no site returned by the source matches the requested name,
`_ts_switch_site` only logs a warning: the current site name, the loaded
upload state, and the project path and hierarchy maps are all left exactly
as they were. -/
theorem switch_site_not_found_is_noop (allSites : List TsSite)
    (loadState : String → State) (listProjects : List ProjectItem)
    (es : EngineState) (site_name : String)
    (h : ∀ s ∈ allSites, s.name ≠ site_name) :
    tsSwitchSite allSites loadState listProjects es site_name = es := by
  have hfilter : allSites.filter (fun s => s.name == site_name) = [] := by
    rw [List.filter_eq_nil_iff]
    intro s hs
    simpa using h s hs
  unfold tsSwitchSite
  rw [hfilter]

/-- Witness for C10: asking for `staging` when only `prod` exists changes
nothing. -/
theorem switch_site_not_found_is_noop_witness :
    tsSwitchSite [{ name := "prod", content_url := "p" }] (fun _ => [])
      demoProjects demoEngine "staging" = demoEngine :=
  switch_site_not_found_is_noop _ _ _ _ _ (by decide)

/-! ## C7 — tombstoned entries are purged only after a successful refresh -/

theorem assoc_nodup_unique (st : State) (k : String) (v w : UploadStateEntry)
    (hnodup : (st.map Prod.fst).Nodup) (hv : (k, v) ∈ st) (hw : (k, w) ∈ st) :
    v = w := by
  induction st with
  | nil => cases hv
  | cons p t ih =>
      rw [List.map_cons, List.nodup_cons] at hnodup
      rcases List.mem_cons.mp hv with hv1 | hv2
      · rcases List.mem_cons.mp hw with hw1 | hw2
        · rw [← hv1] at hw1
          exact (Prod.mk.injEq _ _ _ _ ▸ hw1.symm).2
        · exfalso
          apply hnodup.1
          rw [← hv1]
          exact List.mem_map.mpr ⟨(k, w), hw2, rfl⟩
      · rcases List.mem_cons.mp hw with hw1 | hw2
        · exfalso
          apply hnodup.1
          rw [← hw1]
          exact List.mem_map.mpr ⟨(k, v), hv2, rfl⟩
        · exact ih hnodup.2 hv2 hw2

/-- If the refresh of an entry's stored object key raises, the tombstone
loop leaves that entry in the state: the loop pops an entry only after its
own refresh call returned, and an earlier raise stops the loop with the
entry still present. -/
theorem tombstoneSweepGo_keeps_entry {E : Type} (refresh : String → Except E Unit)
    (k : String) (v : UploadStateEntry) (e : E)
    (he : refresh v.object_key = Except.error e) :
    ∀ (items : List (String × UploadStateEntry)) (st : State),
      dictGet st k = some v →
      (∀ p ∈ items, p.1 = k → p.2 = v) →
      dictGet (tombstoneSweepGo refresh st items).state k = some v := by
  intro items
  induction items with
  | nil => intro st hget _; exact hget
  | cons p rest ih =>
      intro st hget hinv
      obtain ⟨pk, pv⟩ := p
      cases hr : refresh pv.object_key with
      | error e2 =>
          simp only [tombstoneSweepGo, hr]
          exact hget
      | ok u =>
          by_cases hpk : pk = k
          · exfalso
            have hpv : pv = v := hinv (pk, pv) (List.mem_cons_self _ _) hpk
            rw [hpv, he] at hr
            cases hr
          · simp only [tombstoneSweepGo, hr]
            apply ih
            · have : dictGet (st.filter (fun p => !(p.1 == pk))) k = dictGet st k :=
                dictGet_filter st (fun x => !(x == pk)) k (by simpa using Ne.symm hpk)
              rw [dictPop, this]
              exact hget
            · intro q hq hqk
              exact hinv q (List.mem_cons_of_mem _ hq) hqk

/-- C7: an entry whose path is absent from the current listing is removed
from the upload state only after `_s3_update_last_modified` on its stored
`object_key` returned without raising; if that refresh call raises, the
entry is still in the state when the exception propagates. -/
theorem tombstoned_entry_removed_only_after_refresh {E : Type}
    (refresh : String → Except E Unit) (st : State) (livePaths : List String)
    (k : String) (v : UploadStateEntry)
    (hnodup : (st.map Prod.fst).Nodup) (hget : dictGet st k = some v) :
    (∀ e, refresh v.object_key = Except.error e →
        dictGet (tombstoneSweep refresh st livePaths).state k = some v) ∧
    (dictGet (tombstoneSweep refresh st livePaths).state k = none →
        refresh v.object_key = Except.ok ()) := by
  have hkeep : ∀ e, refresh v.object_key = Except.error e →
      dictGet (tombstoneSweep refresh st livePaths).state k = some v := by
    intro e he
    rw [tombstoneSweep]
    apply tombstoneSweepGo_keeps_entry refresh k v e he _ st hget
    intro p hp hpk
    have hpst : p ∈ st := List.mem_of_mem_filter hp
    obtain ⟨pk, pv⟩ := p
    subst hpk
    exact assoc_nodup_unique st _ pv v hnodup hpst (mem_of_dictGet_eq_some st _ v hget)
  refine ⟨hkeep, ?_⟩
  intro hnone
  cases hres : refresh v.object_key with
  | ok u => cases u; rfl
  | error e => rw [hkeep e hres] at hnone; cases hnone

/-- A refresh oracle that raises exactly on `wbA`'s stored object key. -/
def failRefreshOnA : String → Except Nat Unit :=
  fun key => if key == "s/A/wb1.twbx" then Except.error 0 else Except.ok ()

/-- Witness for C7: with an empty listing, the refresh of `s/A/wb1.twbx`
raises, and the entry for `s/A/wb1` is still in the state. -/
theorem tombstoned_entry_removed_only_after_refresh_witness :
    dictGet (tombstoneSweep failRefreshOnA stAB []).state "s/A/wb1" = some entA :=
  (tombstoned_entry_removed_only_after_refresh failRefreshOnA stAB [] "s/A/wb1" entA
    (by decide) (by decide)).1 0 rfl

/-! ## C8 — when a sync-state entry is recorded -/

/-- C8: when `_do_backup` completes (the upload succeeded), a state entry
for the item's path is written exactly when the artifact was downloaded at
full fidelity (`include_extract` still true) or the workbook carries the
`WBBackupIgnoreErrors` tag; a degraded-mode-only transfer without the tag
returns successfully (it was uploaded) but leaves the state untouched, so a
path with no prior entry still has none and the item is rescheduled on the
next run. -/
theorem sync_entry_recorded_iff_full_fidelity_or_ignore_tag {E : Type}
    (ops : TransferOps E) (site : String) (pm : List (String × String))
    (today : String) (wb : WorkbookItem) (st st2 : State)
    (h : doBackup ops site pm today wb st = Except.ok st2) :
    (((tsDownloadWb ops true).1.isOk || wb.tags.contains downloadErrorIgnoreTag) = true →
        ∃ objKey, st2 = dictSet st (getWbPath site pm wb)
          { id := wb.id, name := wb.name, created_at := wb.created_at_fmt,
            updated_at := wb.updated_at_fmt, upload_date := today,
            object_key := objKey }) ∧
    (((tsDownloadWb ops true).1.isOk || wb.tags.contains downloadErrorIgnoreTag) = false →
        st2 = st) ∧
    (dictGet st (getWbPath site pm wb) = none →
        (dictGet st2 (getWbPath site pm wb)).isSome
          = ((tsDownloadWb ops true).1.isOk || wb.tags.contains downloadErrorIgnoreTag)) := by
  unfold doBackup at h
  cases hdl : (tsDownloadWb ops true).1 with
  | ok fp =>
      rw [hdl] at h
      simp only [] at h
      cases hup : (s3Upload ops fp (getWbPath site pm wb ++ "." ++ fileExt fp)).1 with
      | error e => rw [hup] at h; cases h
      | ok u =>
          rw [hup] at h
          simp only [Bool.true_or, if_true] at h
          obtain rfl : _ = st2 := Except.ok.inj h
          refine ⟨?_, ?_, ?_⟩
          · intro _
            exact ⟨_, rfl⟩
          · intro hc
            simp [Except.isOk, Except.toBool] at hc
          · intro hnone
            simp [dictGet_dictSet_self, Except.isOk, Except.toBool]
  | error e1 =>
      rw [hdl] at h
      simp only [] at h
      cases hdl2 : (tsDownloadWb ops false).1 with
      | error e2 => rw [hdl2] at h; cases h
      | ok fp =>
          rw [hdl2] at h
          simp only [] at h
          cases hup : (s3Upload ops fp (getWbPath site pm wb ++ "." ++ fileExt fp)).1 with
          | error e => rw [hup] at h; cases h
          | ok u =>
              rw [hup] at h
              simp only [Except.isOk, Except.toBool, Bool.false_or]
              cases htag : wb.tags.contains downloadErrorIgnoreTag with
              | true =>
                  rw [htag] at h
                  simp only [if_true] at h
                  obtain rfl : _ = st2 := Except.ok.inj h
                  refine ⟨?_, ?_, ?_⟩
                  · intro _
                    exact ⟨_, rfl⟩
                  · intro hc
                    simp at hc
                  · intro hnone
                    simp [dictGet_dictSet_self]
              | false =>
                  rw [htag] at h
                  simp only [Bool.false_eq_true, if_false] at h
                  obtain rfl : st = st2 := Except.ok.inj h
                  refine ⟨?_, ?_, ?_⟩
                  · intro hc
                    simp at hc
                  · intro _
                    rfl
                  · intro hnone
                    rw [hnone]
                    rfl

/-- Witness for C8 at a degraded-mode-only transfer without the opt-out tag:
`_do_backup` succeeds with the state left empty. -/
theorem sync_entry_recorded_witness :
    doBackup degOps "s" abEngine.project_id_path "d" wbA [] = Except.ok [] ∧
    (dictGet ([] : State) (getWbPath "s" abEngine.project_id_path wbA)).isSome
      = ((tsDownloadWb degOps true).1.isOk || wbA.tags.contains downloadErrorIgnoreTag) :=
  ⟨rfl,
   (sync_entry_recorded_iff_full_fidelity_or_ignore_tag degOps "s"
      abEngine.project_id_path "d" wbA [] [] rfl).2.2 rfl⟩

/-! ## C1 — change detection and idempotence -/

theorem contains_true_of_mem {l : List String} {a : String} (h : a ∈ l) :
    l.contains a = true := List.elem_eq_true_of_mem h

theorem not_mem_of_contains_false {l : List String} {a : String}
    (h : l.contains a = false) : a ∉ l := by
  intro hm
  have h2 : l.contains a = true := List.elem_eq_true_of_mem hm
  rw [h2] at h
  cases h

theorem contains_false_of_not_mem {l : List String} {a : String}
    (h : a ∉ l) : l.contains a = false := by
  cases hc : l.contains a
  · rfl
  · exact absurd (List.mem_of_elem_eq_true hc) h

/-- With every refresh succeeding, the tombstone loop just pops each
snapshot entry in turn. -/
theorem tombstoneSweepGo_ok_state (st : State)
    (items : List (String × UploadStateEntry)) :
    (tombstoneSweepGo (fun _ => (Except.ok () : Except Unit Unit)) st items).state
      = items.foldl (fun s p => dictPop s p.1) st := by
  induction items generalizing st with
  | nil => rfl
  | cons p rest ih =>
      obtain ⟨pk, pv⟩ := p
      simp only [tombstoneSweepGo, List.foldl_cons]
      exact ih (dictPop st pk)

theorem foldl_dictPop_filter (items : List (String × UploadStateEntry)) :
    ∀ st : State,
      items.foldl (fun s p => dictPop s p.1) st
        = st.filter (fun q => !((items.map Prod.fst).contains q.1)) := by
  induction items with
  | nil =>
      intro st
      simp
  | cons p rest ih =>
      intro st
      rw [List.foldl_cons, ih (dictPop st p.1), dictPop, List.filter_filter]
      apply List.filter_congr
      intro q _
      rw [List.map_cons, List.contains_cons, Bool.not_or]
      exact Bool.and_comm _ _

/-- The state left by the tombstone loop when every refresh succeeds: exactly
the entries whose paths are still in the live listing. -/
theorem sweep_ok_state (st : State) (live : List String) :
    (tombstoneSweep (fun _ => (Except.ok () : Except Unit Unit)) st live).state
      = st.filter (fun q => live.contains q.1) := by
  rw [tombstoneSweep, tombstoneSweepGo_ok_state, foldl_dictPop_filter]
  apply List.filter_congr
  intro q hq
  cases hlv : live.contains q.1 with
  | true =>
      have hnm : ((st.filter (fun p => !(live.contains p.1))).map Prod.fst).contains q.1
          = false := by
        apply contains_false_of_not_mem
        intro hmm
        obtain ⟨r, hr, hr1⟩ := List.mem_map.mp hmm
        have hrp := (List.mem_filter.mp hr).2
        rw [hr1, hlv] at hrp
        cases hrp
      rw [hnm]
      rfl
  | false =>
      have hqf : q ∈ st.filter (fun p => !(live.contains p.1)) :=
        List.mem_filter.mpr ⟨hq, by rw [hlv]; rfl⟩
      have : ((st.filter (fun p => !(live.contains p.1))).map Prod.fst).contains q.1
          = true :=
        contains_true_of_mem (List.mem_map.mpr ⟨q, hqf, rfl⟩)
      rw [this]
      rfl

/-- With no inclusion filter, the state after the tombstone loop keeps
exactly the entries whose paths occur in the listing. -/
theorem backupSitePlan_nofilter_state (site : String) (pm : List (String × String))
    (hier : List (Option String × List String)) (st : State)
    (wbs : List WorkbookItem) :
    (backupSitePlan site pm hier st [] wbs).stateAfterTombstones
      = st.filter (fun q => (wbs.map (getWbPath site pm)).contains q.1) :=
  sweep_ok_state st (wbs.map (getWbPath site pm))

theorem wbUnchangedIn_congr (st1 st0 : State) (path : String) (wb : WorkbookItem)
    (h : dictGet st1 path = dictGet st0 path) :
    wbUnchangedIn st1 path wb = wbUnchangedIn st0 path wb := by
  unfold wbUnchangedIn
  rw [h]

theorem wbUnchangedIn_of_matches (st : State) (path : String) (wb : WorkbookItem)
    (e : UploadStateEntry) (hg : dictGet st path = some e) (h1 : e.id = wb.id)
    (h2 : e.updated_at = wb.updated_at_fmt) (h3 : e.created_at = wb.created_at_fmt) :
    wbUnchangedIn st path wb = true := by
  unfold wbUnchangedIn
  rw [hg]
  simp [h1, h2, h3]

theorem wbUnchangedIn_eq_false_iff (st : State) (path : String) (wb : WorkbookItem) :
    wbUnchangedIn st path wb = false ↔
      dictGet st path = none ∨
      ∃ e, dictGet st path = some e ∧
        (e.id ≠ wb.id ∨ e.created_at ≠ wb.created_at_fmt ∨
          e.updated_at ≠ wb.updated_at_fmt) := by
  unfold wbUnchangedIn
  cases hg : dictGet st path with
  | none => simp
  | some e =>
      simp only [Option.some.injEq, reduceCtorEq, false_or]
      constructor
      · intro hb
        refine ⟨e, rfl, ?_⟩
        by_contra hc
        push_neg at hc
        rw [hc.1, hc.2.1, hc.2.2] at hb
        simp at hb
      · rintro ⟨e2, he2, hne⟩
        obtain rfl : e = e2 := he2
        rcases hne with h | h | h <;> simp [h]

theorem mem_queue_iff (st : State) (site : String) (pm : List (String × String))
    (wbs : List WorkbookItem) (wb : WorkbookItem) (hwb : wb ∈ wbs) :
    wb ∈ queueToBackup st site pm wbs ↔
      wbUnchangedIn st (getWbPath site pm wb) wb = false := by
  rw [queueToBackup, List.mem_filter]
  simp [hwb]

/-- Under `okOps` every transfer succeeds at full fidelity and `_do_backup`
writes this entry for the workbook (the staging file is `wb.twbx`). -/
def okOpsEntry (site : String) (pm : List (String × String)) (today : String)
    (wb : WorkbookItem) : UploadStateEntry :=
  { id := wb.id, name := wb.name, created_at := wb.created_at_fmt,
    updated_at := wb.updated_at_fmt, upload_date := today,
    object_key := getWbPath site pm wb ++ "." ++ "twbx" }

theorem doBackup_okOps (site : String) (pm : List (String × String))
    (today : String) (wb : WorkbookItem) (st : State) :
    doBackup okOps site pm today wb st
      = Except.ok (dictSet st (getWbPath site pm wb) (okOpsEntry site pm today wb)) := rfl

theorem runQueue_cons {E : Type} (ops : TransferOps E) (site : String)
    (pm : List (String × String)) (today : String) (w : WorkbookItem)
    (rest : List WorkbookItem) (st : State) :
    runQueue ops site pm today (w :: rest) st
      = runQueue ops site pm today rest
          (match doBackup ops site pm today w st with
            | Except.ok s2 => s2
            | Except.error _ => st) := rfl

theorem runQueue_okOps_dictGet_ne (site : String) (pm : List (String × String))
    (today : String) (p : String) :
    ∀ (queue : List WorkbookItem) (st : State),
      (∀ wb ∈ queue, getWbPath site pm wb ≠ p) →
      dictGet (runQueue okOps site pm today queue st) p = dictGet st p := by
  intro queue
  induction queue with
  | nil => intro st _; rfl
  | cons w rest ih =>
      intro st hne
      rw [runQueue_cons, doBackup_okOps]
      have hrest := ih (dictSet st (getWbPath site pm w) (okOpsEntry site pm today w))
        (fun q hq => hne q (List.mem_cons_of_mem _ hq))
      exact hrest.trans (dictGet_dictSet_ne st (getWbPath site pm w) p _
        (Ne.symm (hne w (List.mem_cons_self _ _))))

theorem runQueue_okOps_dictGet_mem (site : String) (pm : List (String × String))
    (today : String) (wb : WorkbookItem) :
    ∀ (queue : List WorkbookItem) (st : State),
      (queue.map (getWbPath site pm)).Nodup → wb ∈ queue →
      dictGet (runQueue okOps site pm today queue st) (getWbPath site pm wb)
        = some (okOpsEntry site pm today wb) := by
  intro queue
  induction queue with
  | nil => intro st _ hmem; cases hmem
  | cons w rest ih =>
      intro st hnodup hmem
      rw [List.map_cons, List.nodup_cons] at hnodup
      rw [runQueue_cons, doBackup_okOps]
      rcases List.mem_cons.mp hmem with rfl | hmem2
      · have hne : ∀ q ∈ rest, getWbPath site pm q ≠ getWbPath site pm wb := by
          intro q hq hqp
          apply hnodup.1
          rw [← hqp]
          exact List.mem_map.mpr ⟨q, hq, rfl⟩
        have := runQueue_okOps_dictGet_ne site pm today (getWbPath site pm wb) rest
          (dictSet st (getWbPath site pm wb) (okOpsEntry site pm today wb)) hne
        exact this.trans (dictGet_dictSet_self st _ _)
      · exact ih _ hnodup.2 hmem2

theorem dictSet_key_mem (k : String) (v : UploadStateEntry) :
    ∀ (st : State), ∀ q ∈ dictSet st k v, q.1 = k ∨ q.1 ∈ st.map Prod.fst := by
  intro st
  induction st with
  | nil =>
      intro q hq
      rcases List.mem_cons.mp hq with rfl | h
      · exact Or.inl rfl
      · cases h
  | cons p t ih =>
      intro q hq
      by_cases hp : p.1 = k
      · simp only [dictSet] at hq
        rw [if_pos (by simpa using hp)] at hq
        rcases List.mem_cons.mp hq with rfl | h
        · exact Or.inl rfl
        · right
          rw [List.map_cons]
          exact List.mem_cons_of_mem _ (List.mem_map.mpr ⟨q, h, rfl⟩)
      · simp only [dictSet] at hq
        rw [if_neg (by simpa using hp)] at hq
        rcases List.mem_cons.mp hq with rfl | h
        · right
          rw [List.map_cons]
          exact List.mem_cons_self _ _
        · rcases ih q h with h1 | h2
          · exact Or.inl h1
          · right
            rw [List.map_cons]
            exact List.mem_cons_of_mem _ h2

theorem runQueue_okOps_keys (site : String) (pm : List (String × String))
    (today : String) :
    ∀ (queue : List WorkbookItem) (st : State) (q : String × UploadStateEntry),
      q ∈ runQueue okOps site pm today queue st →
      q.1 ∈ st.map Prod.fst ∨ ∃ wb, wb ∈ queue ∧ q.1 = getWbPath site pm wb := by
  intro queue
  induction queue with
  | nil =>
      intro st q hq
      exact Or.inl (List.mem_map.mpr ⟨q, hq, rfl⟩)
  | cons w rest ih =>
      intro st q hq
      rw [runQueue_cons, doBackup_okOps] at hq
      rcases ih _ q hq with hkeys | ⟨wb, hwb, hpath⟩
      · obtain ⟨r, hr, hr1⟩ := List.mem_map.mp hkeys
        rcases dictSet_key_mem (getWbPath site pm w) (okOpsEntry site pm today w) st r hr
          with h1 | h2
        · right
          exact ⟨w, List.mem_cons_self _ _, by rw [← hr1, h1]⟩
        · left
          rw [← hr1]
          exact h2
      · right
        exact ⟨wb, List.mem_cons_of_mem _ hwb, hpath⟩

/-- C1: `backup_site` schedules a transfer for a listed workbook iff no
state entry exists at its resolved path, or the entry's id differs from the
workbook's id, or the entry's created_at or updated_at differs from the
workbook's corresponding timestamp rendered through
`'%Y-%m-%d %H:%M:%S%z'`; when all three match the workbook is skipped.
Consequently, over a listing with distinct resolved paths, a second run on
the state left by a fully successful first run (every transfer succeeding
at full fidelity, as `okOps` provides) schedules zero transfers. -/
theorem change_detection_iff_and_second_run_schedules_nothing
    (site today : String) (pm : List (String × String))
    (hier : List (Option String × List String)) (st : State)
    (wbs : List WorkbookItem) :
    (∀ wb ∈ wbs,
      (wb ∈ (backupSitePlan site pm hier st [] wbs).queue ↔
        dictGet st (getWbPath site pm wb) = none ∨
        ∃ e, dictGet st (getWbPath site pm wb) = some e ∧
          (e.id ≠ wb.id ∨ e.created_at ≠ wb.created_at_fmt ∨
            e.updated_at ≠ wb.updated_at_fmt))) ∧
    ((wbs.map (getWbPath site pm)).Nodup →
      (backupSitePlan site pm hier
          (runQueue okOps site pm today
            (backupSitePlan site pm hier st [] wbs).queue
            (backupSitePlan site pm hier st [] wbs).stateAfterTombstones)
          [] wbs).queue = []) := by
  have hstate := backupSitePlan_nofilter_state site pm hier st wbs
  constructor
  · intro wb hwb
    have hcont : (wbs.map (getWbPath site pm)).contains (getWbPath site pm wb) = true :=
      contains_true_of_mem (List.mem_map.mpr ⟨wb, hwb, rfl⟩)
    have hdg : dictGet ((backupSitePlan site pm hier st [] wbs).stateAfterTombstones)
        (getWbPath site pm wb) = dictGet st (getWbPath site pm wb) := by
      rw [hstate]
      exact dictGet_filter st _ _ hcont
    have hq : wb ∈ (backupSitePlan site pm hier st [] wbs).queue ↔
        wbUnchangedIn ((backupSitePlan site pm hier st [] wbs).stateAfterTombstones)
          (getWbPath site pm wb) wb = false :=
      mem_queue_iff _ site pm wbs wb hwb
    rw [hq, wbUnchangedIn_congr _ _ _ _ hdg, wbUnchangedIn_eq_false_iff]
  · intro hnodup
    have hqpathsnodup : (((backupSitePlan site pm hier st [] wbs).queue).map
        (getWbPath site pm)).Nodup := by
      have h1 : ((backupSitePlan site pm hier st [] wbs).queue).Sublist wbs :=
        List.filter_sublist wbs
      exact (h1.map _).nodup hnodup
    show queueToBackup
        ((backupSitePlan site pm hier
            (runQueue okOps site pm today
              (backupSitePlan site pm hier st [] wbs).queue
              (backupSitePlan site pm hier st [] wbs).stateAfterTombstones)
            [] wbs).stateAfterTombstones) site pm wbs = []
    rw [backupSitePlan_nofilter_state]
    rw [queueToBackup]
    apply List.filter_eq_nil_iff.mpr
    intro wb hwb hpred
    have hcont : (wbs.map (getWbPath site pm)).contains (getWbPath site pm wb) = true :=
      contains_true_of_mem (List.mem_map.mpr ⟨wb, hwb, rfl⟩)
    have hdg2 : dictGet ((runQueue okOps site pm today
          (backupSitePlan site pm hier st [] wbs).queue
          (backupSitePlan site pm hier st [] wbs).stateAfterTombstones).filter
            (fun q => (wbs.map (getWbPath site pm)).contains q.1))
        (getWbPath site pm wb)
        = dictGet (runQueue okOps site pm today
            (backupSitePlan site pm hier st [] wbs).queue
            (backupSitePlan site pm hier st [] wbs).stateAfterTombstones)
          (getWbPath site pm wb) :=
      dictGet_filter _ _ _ hcont
    by_cases hq : wb ∈ (backupSitePlan site pm hier st [] wbs).queue
    · have hget := runQueue_okOps_dictGet_mem site pm today wb
        ((backupSitePlan site pm hier st [] wbs).queue)
        ((backupSitePlan site pm hier st [] wbs).stateAfterTombstones)
        hqpathsnodup hq
      have hunch := wbUnchangedIn_of_matches _ (getWbPath site pm wb) wb
        (okOpsEntry site pm today wb) (hdg2.trans hget) rfl rfl rfl
      rw [hunch] at hpred
      simp at hpred
    · have hne : ∀ q ∈ (backupSitePlan site pm hier st [] wbs).queue,
          getWbPath site pm q ≠ getWbPath site pm wb := by
        intro q hqq hpath
        have hqwbs : q ∈ wbs := List.mem_of_mem_filter hqq
        have hqw : q = wb := List.inj_on_of_nodup_map hnodup hqwbs hwb hpath
        exact hq (hqw ▸ hqq)
      have hfin := runQueue_okOps_dictGet_ne site pm today (getWbPath site pm wb)
        ((backupSitePlan site pm hier st [] wbs).queue)
        ((backupSitePlan site pm hier st [] wbs).stateAfterTombstones) hne
      have hunch1 : wbUnchangedIn
          ((backupSitePlan site pm hier st [] wbs).stateAfterTombstones)
          (getWbPath site pm wb) wb = true := by
        cases hcase : wbUnchangedIn
            ((backupSitePlan site pm hier st [] wbs).stateAfterTombstones)
            (getWbPath site pm wb) wb
        · exact absurd ((mem_queue_iff _ site pm wbs wb hwb).mpr hcase) hq
        · rfl
      have hunch : wbUnchangedIn ((runQueue okOps site pm today
            (backupSitePlan site pm hier st [] wbs).queue
            (backupSitePlan site pm hier st [] wbs).stateAfterTombstones).filter
              (fun q => (wbs.map (getWbPath site pm)).contains q.1))
          (getWbPath site pm wb) wb = true := by
        rw [wbUnchangedIn_congr _ _ _ wb (hdg2.trans hfin)]
        exact hunch1
      rw [hunch] at hpred
      simp at hpred

/-- Witness for C1: one workbook, empty prior state — it is scheduled (no
entry exists), and the follow-up run over the resulting state schedules
nothing. -/
theorem change_detection_witness :
    (wbA ∈ (backupSitePlan "s" abEngine.project_id_path abEngine.projects_hierarchy
        ([] : State) [] [wbA]).queue ↔
      dictGet ([] : State) (getWbPath "s" abEngine.project_id_path wbA) = none ∨
      ∃ e, dictGet ([] : State) (getWbPath "s" abEngine.project_id_path wbA) = some e ∧
        (e.id ≠ wbA.id ∨ e.created_at ≠ wbA.created_at_fmt ∨
          e.updated_at ≠ wbA.updated_at_fmt)) ∧
    (backupSitePlan "s" abEngine.project_id_path abEngine.projects_hierarchy
        (runQueue okOps "s" abEngine.project_id_path "d"
          (backupSitePlan "s" abEngine.project_id_path abEngine.projects_hierarchy
            ([] : State) [] [wbA]).queue
          (backupSitePlan "s" abEngine.project_id_path abEngine.projects_hierarchy
            ([] : State) [] [wbA]).stateAfterTombstones)
        [] [wbA]).queue = [] :=
  ⟨(change_detection_iff_and_second_run_schedules_nothing "s" "d"
      abEngine.project_id_path abEngine.projects_hierarchy [] [wbA]).1 wbA
      (List.mem_cons_self _ _),
   (change_detection_iff_and_second_run_schedules_nothing "s" "d"
      abEngine.project_id_path abEngine.projects_hierarchy [] [wbA]).2 (by decide)⟩

def opSucceedsFirst : Nat → Except Nat Nat := fun _ => Except.ok 7

def opAlwaysFails : Nat → Except Nat Nat := fun i => Except.error i

/-- Witness for C6 at concrete operations. -/
theorem retry_bounded_attempts_witness :
    retry 3 opSucceedsFirst = (Except.ok 7, 1) ∧
    retry 3 opAlwaysFails = (Except.error (some 2), 3) :=
  ⟨(retry_bounded_attempts 3 opSucceedsFirst).1 0 7 (by omega)
      (fun _ hj => absurd hj (by omega)) rfl,
   (retry_bounded_attempts 3 opAlwaysFails).2 2 (fun j _ => ⟨j, rfl⟩) (by omega) rfl⟩

end WbBackup2S3
